import Mathlib

/-!
Verification of the nitro skiplist / MVCC iterator sources.

The development shallowly embeds the Go sources:
* `src/skiplist/batch_ops.go` — `Skiplist.ExecBatchOps` / `execBatchOpsInner`
  and the skiplist `Iterator` (`SeekFirst`, `SeekWithSkip`, `Seek`, `SeekPrev`,
  `Valid`, `Get`, `GetNode`, `Delete`, `Next`).
* `src/iterator.go` — the Nitro snapshot iterator variant without an end bound
  (stale variant using one-argument `SeekPrev`).
* `src/unnamed/part_000` (second document) — the Nitro snapshot iterator variant
  with the `endItm` end bound.

Machine integers of the Go code (`uint32` sequence numbers, `int` levels) are
modelled as `Nat`; keys and comparator results (`CompareFn`) as an abstract type
`α` with `cmp : α → α → Int`; pointers and slices as lists.  Skiplist internals
that are not part of the given sources (`findPath`, `findPath2`, the sentinel
`compare` helper, node towers) are modelled from the specification, as marked
on each such definition.
-/

set_option maxHeartbeats 1000000

namespace Nitro

/-- Lawfulness of a Go `CompareFn`: the sign of `cmp` describes a total
preorder.  These are the usual comparator contract laws assumed by the
skiplist ("a caller-supplied comparator" giving a total order on keys). -/
structure IsComparator {α : Type} (cmp : α → α → Int) : Prop where
  sym : ∀ a b, 0 ≤ cmp a b ↔ cmp b a ≤ 0
  le_trans : ∀ a b c, cmp a b ≤ 0 → cmp b c ≤ 0 → cmp a c ≤ 0
  le_lt_trans : ∀ a b c, cmp a b ≤ 0 → cmp b c < 0 → cmp a c < 0
  lt_le_trans : ∀ a b c, cmp a b < 0 → cmp b c ≤ 0 → cmp a c < 0

/-- Skiplist node items together with the two sentinels: the `head` node
carries `MinItem` (−∞) and the `tail` node carries `MaxItem` (+∞). -/
inductive SEntry (α : Type) where
  | minItem : SEntry α
  | mid (a : α) : SEntry α
  | maxItem : SEntry α
deriving DecidableEq, Repr

/-- Modelled from the spec: the skiplist `compare` helper (not under `src/`)
extends the user comparator to the sentinels, `head` (= −∞) below every key
and `tail` (= +∞) above every key. -/
def scompare {α : Type} (cmp : α → α → Int) : SEntry α → SEntry α → Int
  | .minItem, .minItem => 0
  | .minItem, .mid _ => -1
  | .minItem, .maxItem => -1
  | .mid _, .minItem => 1
  | .mid a, .mid b => cmp a b
  | .mid _, .maxItem => -1
  | .maxItem, .minItem => 1
  | .maxItem, .mid _ => 1
  | .maxItem, .maxItem => 0

theorem scompare_maxItem_left_nonneg {α : Type} (cmp : α → α → Int)
    (y : SEntry α) : 0 ≤ scompare cmp SEntry.maxItem y := by
  cases y <;> simp [scompare]

theorem scompare_mid_maxItem {α : Type} (cmp : α → α → Int) (a : α) :
    scompare cmp (SEntry.mid a) SEntry.maxItem = -1 := rfl

theorem scompare_sym {α : Type} {cmp : α → α → Int} (hc : IsComparator cmp) :
    ∀ x y : SEntry α, 0 ≤ scompare cmp x y ↔ scompare cmp y x ≤ 0 := by
  intro x y
  cases x <;> cases y <;> simp [scompare]
  exact hc.sym _ _

theorem scompare_le_trans {α : Type} {cmp : α → α → Int} (hc : IsComparator cmp) :
    ∀ x y z : SEntry α, scompare cmp x y ≤ 0 → scompare cmp y z ≤ 0 →
      scompare cmp x z ≤ 0 := by
  intro x y z hxy hyz
  cases x <;> cases y <;> cases z <;> simp_all [scompare]
  exact hc.le_trans _ _ _ hxy hyz

theorem scompare_le_lt_trans {α : Type} {cmp : α → α → Int} (hc : IsComparator cmp) :
    ∀ x y z : SEntry α, scompare cmp x y ≤ 0 → scompare cmp y z < 0 →
      scompare cmp x z < 0 := by
  intro x y z hxy hyz
  cases x <;> cases y <;> cases z <;> simp_all [scompare]
  exact hc.le_lt_trans _ _ _ hxy hyz

theorem scompare_lt_le_trans {α : Type} {cmp : α → α → Int} (hc : IsComparator cmp) :
    ∀ x y z : SEntry α, scompare cmp x y < 0 → scompare cmp y z ≤ 0 →
      scompare cmp x z < 0 := by
  intro x y z hxy hyz
  cases x <;> cases y <;> cases z <;> simp_all [scompare]
  exact hc.lt_le_trans _ _ _ hxy hyz

/-- Flip lemma at the `SEntry` level: when the loop guard
`scompare x y < 0` fails, the reverse comparison is nonpositive. -/
theorem scompare_flip {α : Type} {cmp : α → α → Int} (hc : IsComparator cmp)
    {x y : SEntry α} (h : ¬ scompare cmp x y < 0) : scompare cmp y x ≤ 0 :=
  (scompare_sym hc x y).1 (Int.not_lt.1 h)

/-- A batch operation of `ExecBatchOps`: a flag and an item
(`type BatchOp struct { flag int; itm unsafe.Pointer }`). -/
structure BatchOp (α : Type) where
  flag : Nat
  itm : α
deriving DecidableEq, Repr

/-- The skiplist state read by the batch descent: the level-0 sequence of real
nodes (item and tower height) between the `head` and `tail` sentinels, and the
current effective top level (`s.level`).  A node of height `h` appears in the
level-`l` chain iff `l < h`; the sentinels appear in every chain. -/
structure BSkiplist (α : Type) where
  nodes : List (α × Nat)
  level : Nat
deriving Repr

namespace BSkiplist

variable {α : Type}

/-- Index of the `tail` sentinel; node indices run `0` (head), `1..len`
(real nodes), `len+1` (tail). -/
def lastIdx (s : BSkiplist α) : Nat := s.nodes.length + 1

/-- `Node.Item()` of the node at index `i` (out-of-range defaults to the
tail sentinel, which the traversal never passes). -/
def itmAt (s : BSkiplist α) (i : Nat) : SEntry α :=
  if i = 0 then .minItem
  else if h : i - 1 < s.nodes.length then .mid (s.nodes.get ⟨i - 1, h⟩).1
  else .maxItem

/-- Tower height of the real node at index `i` (sentinel / out-of-range
indices get height 0; they are never probed by `getNextIdx`). -/
def heightAt (s : BSkiplist α) (i : Nat) : Nat :=
  if h : i - 1 < s.nodes.length then (s.nodes.get ⟨i - 1, h⟩).2 else 0

/-- `Node.getNext(level)`: the next node of the level-`level` chain after
index `i` — the first real node above `i` whose tower covers the level,
defaulting to the `tail` sentinel. -/
def getNextIdx (s : BSkiplist α) (level i : Nat) : Nat :=
  ((List.range' (i + 1) (s.nodes.length - i)).find?
      (fun j => decide (level < heightAt s j))).getD (lastIdx s)

theorem itmAt_zero (s : BSkiplist α) : itmAt s 0 = SEntry.minItem := rfl

theorem itmAt_maxItem_of_ge (s : BSkiplist α) {i : Nat} (h : lastIdx s ≤ i) :
    itmAt s i = SEntry.maxItem := by
  unfold itmAt lastIdx at *
  have h0 : i ≠ 0 := by omega
  have h1 : ¬ i - 1 < s.nodes.length := by omega
  simp [h0, h1]

theorem lt_lastIdx_of_guard {cmp : α → α → Int} (s : BSkiplist α) {i : Nat}
    {y : SEntry α} (h : scompare cmp (itmAt s i) y < 0) : i < lastIdx s := by
  by_contra hge
  have hmax : itmAt s i = SEntry.maxItem := itmAt_maxItem_of_ge s (by omega)
  rw [hmax] at h
  exact absurd h (Int.not_lt.2 (scompare_maxItem_left_nonneg cmp y))

theorem getNextIdx_gt (s : BSkiplist α) (level : Nat) {i : Nat}
    (h : i < lastIdx s) : i < getNextIdx s level i := by
  unfold getNextIdx
  cases hf : (List.range' (i + 1) (s.nodes.length - i)).find?
      (fun j => decide (level < heightAt s j)) with
  | none => simpa using h
  | some j =>
    have hmem := List.mem_of_find?_eq_some hf
    have := List.mem_range'_1.1 hmem
    simpa using (by omega : i < j)

theorem getNextIdx_le (s : BSkiplist α) (level i : Nat) :
    getNextIdx s level i ≤ lastIdx s := by
  unfold getNextIdx
  cases hf : (List.range' (i + 1) (s.nodes.length - i)).find?
      (fun j => decide (level < heightAt s j)) with
  | none => simp [lastIdx]
  | some j =>
    have hmem := List.mem_of_find?_eq_some hf
    have := List.mem_range'_1.1 hmem
    have : j < i + 1 + (s.nodes.length - i) := this.2
    simp only [Option.getD_some]
    unfold lastIdx
    omega

end BSkiplist

/-- A level-0 callback invocation recorded by the batch descent: the current
node, its right neighbour at level 0, the remaining ops at the moment of the
call (`currOps`), and the slice `currOps[0:offset]` actually delivered. -/
structure CallbEntry (α : Type) where
  currIdx : Nat
  rightIdx : Nat
  pre : List (BatchOp α)
  delivered : List (BatchOp α)
deriving Repr

open BSkiplist in
/-- The level-0 partition test of `execBatchOpsInner`: does the op item fall
strictly below the item of the node at index `r`
(`compare(cmp, currOps[offset].itm, rightNode.Item()) < 0`)? -/
def belowIdx {α : Type} (s : BSkiplist α) (cmp : α → α → Int) (r : Nat)
    (op : BatchOp α) : Bool :=
  decide (scompare cmp (SEntry.mid op.itm) (BSkiplist.itmAt s r) < 0)

open BSkiplist in
/-- `Skiplist.execBatchOpsInner` of `src/skiplist/batch_ops.go`, with the
iterative level loop written as tail recursion on the current node index `i`.
In addition to the Go results (remaining ops, error) it returns the trace of
callback invocations performed, in order.  The callback is modelled as a pure
function from the current node index and the delivered slice to an optional
error. -/
def goExec {α ε : Type} (s : BSkiplist α) (cmp : α → α → Int)
    (callb : Nat → List (BatchOp α) → Option ε) :
    (level i endIdx : Nat) → (ops : List (BatchOp α)) →
      List (CallbEntry α) × List (BatchOp α) × Option ε
  | _, _, _, [] => ([], [], none)
  | level, i, endIdx, op0 :: rest =>
    if hg : scompare cmp (itmAt s i) (itmAt s endIdx) < 0 then
      let right := getNextIdx s level i
      if scompare cmp (SEntry.mid op0.itm) (itmAt s right) < 0 then
        if level = 0 then
          let delivered := op0 :: rest.takeWhile (belowIdx s cmp right)
          match callb i delivered with
          | some e => ([⟨i, right, op0 :: rest, delivered⟩], op0 :: rest, some e)
          | none =>
            let cont := goExec s cmp callb level right endIdx
              (rest.dropWhile (belowIdx s cmp right))
            (⟨i, right, op0 :: rest, delivered⟩ :: cont.1, cont.2)
        else
          let inner := goExec s cmp callb (level - 1) i right (op0 :: rest)
          match inner.2.2 with
          | some _ => inner
          | none =>
            let cont := goExec s cmp callb level right endIdx inner.2.1
            (inner.1 ++ cont.1, cont.2)
      else
        goExec s cmp callb level right endIdx (op0 :: rest)
    else ([], op0 :: rest, none)
termination_by level i _ _ => (level, lastIdx s - i)
decreasing_by
  · apply Prod.Lex.right
    have hlt := lt_lastIdx_of_guard s hg
    have hgt := getNextIdx_gt s level hlt
    omega
  · apply Prod.Lex.left
    omega
  · apply Prod.Lex.right
    have hlt := lt_lastIdx_of_guard s hg
    have hgt := getNextIdx_gt s level hlt
    omega
  · apply Prod.Lex.right
    have hlt := lt_lastIdx_of_guard s hg
    have hgt := getNextIdx_gt s level hlt
    omega

/-- The outcome of `Skiplist.ExecBatchOps`: either the panic on leftover ops,
a callback error returned to the caller, or normal completion. -/
inductive BatchResult (ε : Type) where
  | panicRemaining (n : Nat) : BatchResult ε
  | err (e : ε) : BatchResult ε
  | ok : BatchResult ε
deriving DecidableEq, Repr

/-- `Skiplist.ExecBatchOps`: runs the batch descent from `head` to `tail` at
the current top level, then — exactly as in the Go source — first panics when
ops remain undelivered and only otherwise returns the callback error. -/
def ExecBatchOps {α ε : Type} (s : BSkiplist α) (cmp : α → α → Int)
    (callb : Nat → List (BatchOp α) → Option ε) (ops : List (BatchOp α)) :
    List (CallbEntry α) × BatchResult ε :=
  let r := goExec s cmp callb s.level 0 (BSkiplist.lastIdx s) ops
  (r.1,
    if 0 < r.2.1.length then .panicRemaining r.2.1.length
    else match r.2.2 with
      | some e => .err e
      | none => .ok)

/-- Concatenation of the delivered slices of a callback trace. -/
def concatOps {α : Type} : List (CallbEntry α) → List (BatchOp α)
  | [] => []
  | e :: t => e.delivered ++ concatOps t

theorem concatOps_append {α : Type} (l₁ l₂ : List (CallbEntry α)) :
    concatOps (l₁ ++ l₂) = concatOps l₁ ++ concatOps l₂ := by
  induction l₁ with
  | nil => simp [concatOps]
  | cons e t ih => simp [concatOps, ih]

open BSkiplist

theorem gx_suffix {α ε : Type} (s : BSkiplist α) (cmp : α → α → Int)
    (callb : Nat → List (BatchOp α) → Option ε) :
    ∀ level i endIdx ops, (goExec s cmp callb level i endIdx ops).2.1 <:+ ops := by
  intro level i endIdx ops
  induction level, i, endIdx, ops using goExec.induct s cmp callb with
  | case1 level i endIdx => simp [goExec]
  | case2 i endIdx op0 rest hg e right hbr delivered hcb =>
    rw [goExec.eq_def]
    simp [hg, hbr, hcb]
  | case3 i endIdx op0 rest hg right hbr delivered hcb ih =>
    rw [goExec.eq_def]
    simp +zetaDelta [hg, hbr, hcb]
    exact ih.trans ((List.dropWhile_suffix _).trans (List.suffix_cons _ _))
  | case4 level i endIdx op0 rest hg right hbr hl inner e hie ihin =>
    replace hie : (goExec s cmp callb (level - 1) i (s.getNextIdx level i)
      (op0 :: rest)).2.2 = some e := hie
    replace ihin : (goExec s cmp callb (level - 1) i (s.getNextIdx level i)
      (op0 :: rest)).2.1 <:+ op0 :: rest := ihin
    rw [goExec.eq_def]
    simp +zetaDelta [hg, hbr, hl, hie]
    exact ihin
  | case5 level i endIdx op0 rest hg right hbr hl inner hie ihin ihdup ihcont =>
    replace hie : (goExec s cmp callb (level - 1) i (s.getNextIdx level i)
      (op0 :: rest)).2.2 = none := hie
    replace ihin : (goExec s cmp callb (level - 1) i (s.getNextIdx level i)
      (op0 :: rest)).2.1 <:+ op0 :: rest := ihin
    replace ihcont : (goExec s cmp callb level (s.getNextIdx level i) endIdx
      (goExec s cmp callb (level - 1) i (s.getNextIdx level i) (op0 :: rest)).2.1).2.1 <:+
      (goExec s cmp callb (level - 1) i (s.getNextIdx level i) (op0 :: rest)).2.1 := ihcont
    rw [goExec.eq_def]
    simp +zetaDelta [hg, hbr, hl, hie]
    exact ihcont.trans ihin
  | case6 level i endIdx op0 rest hg right hbr ih =>
    rw [goExec.eq_def]
    simp +zetaDelta [hg, hbr]
    exact ih
  | case7 level i endIdx op0 rest hg =>
    rw [goExec.eq_def]
    simp [hg]

theorem scompare_maxItem_right {α : Type} (cmp : α → α → Int) :
    ∀ x : SEntry α, x = SEntry.maxItem ∨ scompare cmp x SEntry.maxItem = -1 := by
  intro x
  cases x <;> simp [scompare]

theorem gx_conserve {α ε : Type} (s : BSkiplist α) (cmp : α → α → Int)
    (callb : Nat → List (BatchOp α) → Option ε) :
    ∀ level i endIdx ops, (goExec s cmp callb level i endIdx ops).2.2 = none →
      concatOps (goExec s cmp callb level i endIdx ops).1 ++
        (goExec s cmp callb level i endIdx ops).2.1 = ops := by
  intro level i endIdx ops
  induction level, i, endIdx, ops using goExec.induct s cmp callb with
  | case1 level i endIdx => simp [goExec, concatOps]
  | case2 i endIdx op0 rest hg e right hbr delivered hcb =>
    rw [goExec.eq_def]
    simp [hg, hbr, hcb]
  | case3 i endIdx op0 rest hg right hbr delivered hcb ih =>
    simp +zetaDelta only [] at ih
    rw [goExec.eq_def]
    simp +zetaDelta [hg, hbr, hcb, concatOps]
    intro hnone
    rw [ih hnone, List.takeWhile_append_dropWhile]
  | case4 level i endIdx op0 rest hg right hbr hl inner e hie ihin =>
    replace hie : (goExec s cmp callb (level - 1) i (s.getNextIdx level i)
      (op0 :: rest)).2.2 = some e := hie
    rw [goExec.eq_def]
    simp +zetaDelta [hg, hbr, hl, hie]
  | case5 level i endIdx op0 rest hg right hbr hl inner hie ihin ihdup ihcont =>
    replace hie : (goExec s cmp callb (level - 1) i (s.getNextIdx level i)
      (op0 :: rest)).2.2 = none := hie
    replace ihin := ihin hie
    simp +zetaDelta only [] at ihcont ihin
    rw [goExec.eq_def]
    simp +zetaDelta [hg, hbr, hl, hie, concatOps_append]
    intro hnone
    rw [ihcont hnone]
    exact ihin
  | case6 level i endIdx op0 rest hg right hbr ih =>
    rw [goExec.eq_def]
    simp +zetaDelta [hg, hbr]
    exact ih
  | case7 level i endIdx op0 rest hg =>
    rw [goExec.eq_def]
    simp [hg, concatOps]

theorem gx_noerr {α ε : Type} (s : BSkiplist α) (cmp : α → α → Int)
    (callb : Nat → List (BatchOp α) → Option ε)
    (hcb : ∀ n l, callb n l = none) :
    ∀ level i endIdx ops, (goExec s cmp callb level i endIdx ops).2.2 = none := by
  intro level i endIdx ops
  induction level, i, endIdx, ops using goExec.induct s cmp callb with
  | case1 level i endIdx => simp [goExec]
  | case2 i endIdx op0 rest hg e right hbr delivered hcb2 =>
    rw [hcb] at hcb2
    exact absurd hcb2 (by simp)
  | case3 i endIdx op0 rest hg right hbr delivered hcb2 ih =>
    rw [goExec.eq_def]
    simp +zetaDelta [hg, hbr, hcb2]
    exact ih
  | case4 level i endIdx op0 rest hg right hbr hl inner e hie ihin =>
    replace hie : (goExec s cmp callb (level - 1) i (s.getNextIdx level i)
      (op0 :: rest)).2.2 = some e := hie
    rw [ihin] at hie
    exact absurd hie (by simp)
  | case5 level i endIdx op0 rest hg right hbr hl inner hie ihin ihdup ihcont =>
    replace hie : (goExec s cmp callb (level - 1) i (s.getNextIdx level i)
      (op0 :: rest)).2.2 = none := hie
    rw [goExec.eq_def]
    simp +zetaDelta [hg, hbr, hl, hie]
    exact ihcont
  | case6 level i endIdx op0 rest hg right hbr ih =>
    rw [goExec.eq_def]
    simp +zetaDelta [hg, hbr]
    exact ih
  | case7 level i endIdx op0 rest hg =>
    rw [goExec.eq_def]
    simp [hg]

theorem gx_allmax {α ε : Type} (s : BSkiplist α) (cmp : α → α → Int)
    (callb : Nat → List (BatchOp α) → Option ε)
    (hcb : ∀ n l, callb n l = none) :
    ∀ level i endIdx ops, itmAt s endIdx = SEntry.maxItem →
      (goExec s cmp callb level i endIdx ops).2.1 = [] ∨
        itmAt s i = SEntry.maxItem := by
  intro level i endIdx ops
  induction level, i, endIdx, ops using goExec.induct s cmp callb with
  | case1 level i endIdx => intro _; left; simp [goExec]
  | case2 i endIdx op0 rest hg e right hbr delivered hcb2 =>
    rw [hcb] at hcb2
    exact absurd hcb2 (by simp)
  | case3 i endIdx op0 rest hg right hbr delivered hcb2 ih =>
    intro hmax
    left
    rw [goExec.eq_def]
    simp +zetaDelta [hg, hbr, hcb2]
    rcases ih hmax with h | h
    · exact h
    · have hdrop : rest.dropWhile (belowIdx s cmp (s.getNextIdx 0 i)) = [] := by
        rw [List.dropWhile_eq_nil_iff]
        intro x _
        simp [belowIdx, h, scompare_mid_maxItem]
      rw [hdrop]
      simp [goExec]
  | case4 level i endIdx op0 rest hg right hbr hl inner e hie ihin =>
    replace hie : (goExec s cmp callb (level - 1) i (s.getNextIdx level i)
      (op0 :: rest)).2.2 = some e := hie
    rw [gx_noerr s cmp callb hcb] at hie
    exact absurd hie (by simp)
  | case5 level i endIdx op0 rest hg right hbr hl inner hie ihin ihdup ihcont =>
    intro hmax
    left
    replace hie : (goExec s cmp callb (level - 1) i (s.getNextIdx level i)
      (op0 :: rest)).2.2 = none := hie
    rw [goExec.eq_def]
    simp +zetaDelta [hg, hbr, hl, hie]
    rcases ihcont hmax with h | h
    · exact h
    · rcases ihin h with h2 | h2
      · rw [h2]
        simp [goExec]
      · rw [h2, hmax] at hg
        exact absurd hg (by simp [scompare])
  | case6 level i endIdx op0 rest hg right hbr ih =>
    intro hmax
    left
    rw [goExec.eq_def]
    simp +zetaDelta [hg, hbr]
    rcases ih hmax with h | h
    · exact h
    · replace hbr : ¬ scompare cmp (SEntry.mid op0.itm) (s.itmAt (s.getNextIdx level i)) < 0 := hbr
      rw [h, scompare_mid_maxItem] at hbr
      exact absurd (by norm_num : (-1 : Int) < 0) hbr
  | case7 level i endIdx op0 rest hg =>
    intro hmax
    right
    rw [hmax] at hg
    rcases scompare_maxItem_right cmp (s.itmAt i) with h | h
    · exact h
    · rw [h] at hg
      exact absurd (by norm_num : (-1 : Int) < 0) hg

theorem dropWhile_head_not {α : Type} (p : α → Bool) :
    ∀ (l : List α) (x : α) (xs : List α), l.dropWhile p = x :: xs → p x = false := by
  intro l
  induction l with
  | nil => intro x xs h; simp at h
  | cons a t ih =>
    intro x xs h
    rw [List.dropWhile_cons] at h
    by_cases hp : p a
    · exact ih x xs (by simpa [hp] using h)
    · rw [if_neg (by simp [hp])] at h
      cases h
      simpa using hp

theorem takeWhile_eq_filter_of_sorted {α : Type} {R : α → α → Prop} {p : α → Bool}
    (hdc : ∀ x y, R x y → p y = true → p x = true) :
    ∀ l : List α, l.Pairwise R → l.takeWhile p = l.filter p := by
  intro l hl
  induction l with
  | nil => rfl
  | cons a t ih =>
    rcases List.pairwise_cons.1 hl with ⟨ha, ht⟩
    by_cases hp : p a
    · simp [List.takeWhile_cons, List.filter_cons, hp, ih ht]
    · have hall : ∀ x ∈ t, ¬ p x = true := by
        intro x hx hpx
        exact hp (hdc a x (ha x hx) hpx)
      simp only [List.takeWhile_cons, List.filter_cons]
      rw [if_neg (by simpa using hp), if_neg (by simpa using hp)]
      have : t.filter p = [] := by
        rw [List.filter_eq_nil_iff]
        intro x hx
        simpa using hall x hx
      rw [this]

theorem gx_inv {α ε : Type} (s : BSkiplist α) (cmp : α → α → Int)
    (callb : Nat → List (BatchOp α) → Option ε) (hc : IsComparator cmp) :
    ∀ level i endIdx ops,
      List.Pairwise (fun a b : BatchOp α => cmp a.itm b.itm ≤ 0) ops →
      (∀ e0 r, ops = e0 :: r →
        scompare cmp (itmAt s i) (SEntry.mid e0.itm) ≤ 0) →
      ((goExec s cmp callb level i endIdx ops).2.2 = none →
        ∀ e0 r, (goExec s cmp callb level i endIdx ops).2.1 = e0 :: r →
          scompare cmp (itmAt s endIdx) (SEntry.mid e0.itm) ≤ 0) ∧
      (∀ en ∈ (goExec s cmp callb level i endIdx ops).1,
        (∃ p0 pr, en.pre = p0 :: pr) ∧
        en.delivered = en.pre.takeWhile (belowIdx s cmp en.rightIdx) ∧
        en.delivered = en.pre.filter (belowIdx s cmp en.rightIdx) ∧
        (∀ op ∈ en.delivered,
          scompare cmp (itmAt s en.currIdx) (SEntry.mid op.itm) ≤ 0 ∧
          scompare cmp (SEntry.mid op.itm) (itmAt s en.rightIdx) < 0)) := by
  have hdc : ∀ (r : Nat) (x y : BatchOp α), cmp x.itm y.itm ≤ 0 →
      belowIdx s cmp r y = true → belowIdx s cmp r x = true := by
    intro r x y hxy hy
    simp only [belowIdx, decide_eq_true_eq] at hy ⊢
    exact scompare_le_lt_trans hc (SEntry.mid x.itm) (SEntry.mid y.itm) _ hxy hy
  have entryQ : ∀ (i endIdx : Nat) (op0 : BatchOp α) (rest : List (BatchOp α)),
      List.Pairwise (fun a b : BatchOp α => cmp a.itm b.itm ≤ 0) (op0 :: rest) →
      (∀ e0 r, op0 :: rest = e0 :: r →
        scompare cmp (itmAt s i) (SEntry.mid e0.itm) ≤ 0) →
      scompare cmp (SEntry.mid op0.itm) (itmAt s (s.getNextIdx 0 i)) < 0 →
      (∃ p0 pr, op0 :: rest = p0 :: pr) ∧
      (op0 :: rest.takeWhile (belowIdx s cmp (s.getNextIdx 0 i))) =
        (op0 :: rest).takeWhile (belowIdx s cmp (s.getNextIdx 0 i)) ∧
      (op0 :: rest.takeWhile (belowIdx s cmp (s.getNextIdx 0 i))) =
        (op0 :: rest).filter (belowIdx s cmp (s.getNextIdx 0 i)) ∧
      (∀ op ∈ op0 :: rest.takeWhile (belowIdx s cmp (s.getNextIdx 0 i)),
        scompare cmp (itmAt s i) (SEntry.mid op.itm) ≤ 0 ∧
        scompare cmp (SEntry.mid op.itm) (itmAt s (s.getNextIdx 0 i)) < 0) := by
    intro i endIdx op0 rest hsort hinv hbr
    have hb0 : belowIdx s cmp (s.getNextIdx 0 i) op0 = true := by
      simpa [belowIdx] using hbr
    have htake : (op0 :: rest.takeWhile (belowIdx s cmp (s.getNextIdx 0 i))) =
        (op0 :: rest).takeWhile (belowIdx s cmp (s.getNextIdx 0 i)) := by
      rw [List.takeWhile_cons, if_pos hb0]
    refine ⟨⟨op0, rest, rfl⟩, htake, ?_, ?_⟩
    · rw [htake, takeWhile_eq_filter_of_sorted (hdc (s.getNextIdx 0 i)) _ hsort]
    · intro op hop
      have hmem : op ∈ op0 :: rest :=
        (List.takeWhile_sublist _).subset (htake ▸ hop)
      have hbelow : belowIdx s cmp (s.getNextIdx 0 i) op = true :=
        List.mem_takeWhile_imp (htake ▸ hop)
      constructor
      · rcases List.mem_cons.1 hmem with h | h
        · exact h ▸ hinv op0 rest rfl
        · have h01 : cmp op0.itm op.itm ≤ 0 := List.rel_of_pairwise_cons hsort h
          exact scompare_le_trans hc _ (SEntry.mid op0.itm) _ (hinv op0 rest rfl) h01
      · simpa [belowIdx] using hbelow
  intro level i endIdx ops
  induction level, i, endIdx, ops using goExec.induct s cmp callb with
  | case1 level i endIdx =>
    intro _ _
    constructor
    · intro _ e0 r h
      rw [goExec.eq_def] at h
      simp at h
    · intro en hen
      rw [goExec.eq_def] at hen
      simp at hen
  | case2 i endIdx op0 rest hg e right hbr delivered hcb =>
    intro hsort hinv
    rw [goExec.eq_def]
    simp +zetaDelta only [hg, hbr, hcb, dif_pos, if_pos, if_true]
    constructor
    · intro hnone
      simp [hcb] at hnone
    · intro en hen
      simp at hen
      subst hen
      exact entryQ i endIdx op0 rest hsort hinv hbr
  | case3 i endIdx op0 rest hg right hbr delivered hcb ih =>
    intro hsort hinv
    have hsort' : List.Pairwise (fun a b : BatchOp α => cmp a.itm b.itm ≤ 0)
        (rest.dropWhile (belowIdx s cmp (s.getNextIdx 0 i))) :=
      List.Pairwise.sublist ((List.dropWhile_sublist _).trans
        (List.sublist_cons_self _ _)) hsort
    have hinv' : ∀ e0 r, rest.dropWhile (belowIdx s cmp (s.getNextIdx 0 i)) = e0 :: r →
        scompare cmp (itmAt s (s.getNextIdx 0 i)) (SEntry.mid e0.itm) ≤ 0 := by
      intro e0 r h
      have := dropWhile_head_not _ _ _ _ h
      simp only [belowIdx, decide_eq_true_eq] at this
      exact scompare_flip hc (by simpa using this)
    rcases ih hsort' hinv' with ⟨ihA, ihB⟩
    rw [goExec.eq_def]
    simp +zetaDelta only [hg, hbr, hcb, dif_pos, if_pos, if_true, ite_true, dite_true]
    constructor
    · intro hnone e0 r h
      exact ihA hnone e0 r h
    · intro en hen
      simp only [List.mem_cons] at hen
      rcases hen with hen | hen
      · subst hen
        exact entryQ i endIdx op0 rest hsort hinv hbr
      · exact ihB en hen
  | case4 level i endIdx op0 rest hg right hbr hl inner e hie ihin =>
    intro hsort hinv
    replace hie : (goExec s cmp callb (level - 1) i (s.getNextIdx level i)
      (op0 :: rest)).2.2 = some e := hie
    rcases ihin hsort hinv with ⟨ihA, ihB⟩
    rw [goExec.eq_def]
    simp +zetaDelta only [hg, hbr, hl, hie, dif_pos, if_pos, if_neg, ite_true, dite_true,
      if_false, ite_false]
    constructor
    · intro hnone
      simp at hnone
    · exact ihB
  | case5 level i endIdx op0 rest hg right hbr hl inner hie ihin ihdup ihcont =>
    intro hsort hinv
    replace hie : (goExec s cmp callb (level - 1) i (s.getNextIdx level i)
      (op0 :: rest)).2.2 = none := hie
    rcases ihin hsort hinv with ⟨ihinA, ihinB⟩
    have hsortrem : List.Pairwise (fun a b : BatchOp α => cmp a.itm b.itm ≤ 0)
        (goExec s cmp callb (level - 1) i (s.getNextIdx level i) (op0 :: rest)).2.1 :=
      List.Pairwise.sublist (gx_suffix s cmp callb _ _ _ _).sublist hsort
    have hinvrem : ∀ e0 r,
        (goExec s cmp callb (level - 1) i (s.getNextIdx level i) (op0 :: rest)).2.1 = e0 :: r →
        scompare cmp (itmAt s (s.getNextIdx level i)) (SEntry.mid e0.itm) ≤ 0 :=
      fun e0 r h => ihinA hie e0 r h
    rcases ihcont hsortrem hinvrem with ⟨ihcontA, ihcontB⟩
    rw [goExec.eq_def]
    simp +zetaDelta only [hg, hbr, hl, hie, dif_pos, if_pos, if_neg, ite_true, dite_true]
    constructor
    · intro hnone e0 r h
      exact ihcontA hnone e0 r h
    · intro en hen
      rcases List.mem_append.1 hen with hen2 | hen2
      · exact ihinB en hen2
      · exact ihcontB en hen2
  | case6 level i endIdx op0 rest hg right hbr ih =>
    intro hsort hinv
    have hinv' : ∀ e0 r, op0 :: rest = e0 :: r →
        scompare cmp (itmAt s (s.getNextIdx level i)) (SEntry.mid e0.itm) ≤ 0 := by
      intro e0 r h
      cases h
      exact scompare_flip hc (by simpa using hbr)
    rcases ih hsort hinv' with ⟨ihA, ihB⟩
    rw [goExec.eq_def]
    simp +zetaDelta only [hg, hbr, dif_pos, if_neg, ite_false, dite_true, ite_true]
    exact ⟨ihA, ihB⟩
  | case7 level i endIdx op0 rest hg =>
    intro hsort hinv
    rw [goExec.eq_def]
    simp only [hg, dite_false, dif_neg, if_neg, not_false_iff]
    constructor
    · intro _ e0 r h
      cases h
      have hle : scompare cmp (itmAt s endIdx) (itmAt s i) ≤ 0 := scompare_flip hc hg
      exact scompare_le_trans hc _ _ _ hle (hinv op0 rest rfl)
    · intro en hen
      simp at hen

/-- Bytewise-style comparator on `Nat` keys used for concrete instances. -/
def natCmp (a b : Nat) : Int := (a : Int) - (b : Int)

theorem natCmp_isComparator : IsComparator natCmp := by
  constructor <;> intro a b <;> simp [natCmp] <;> omega

/-- Claim C3: when the callback never returns an error, `ExecBatchOps` on a
sorted op list delivers every operation exactly once — the concatenation of
the delivered callback slices is the input list — so no ops remain and the
"non-zero items remaining" panic branch is not taken (the result is `ok`). -/
theorem C3_execBatchOps_complete {α ε : Type} (s : BSkiplist α) (cmp : α → α → Int)
    (callb : Nat → List (BatchOp α) → Option ε) (ops : List (BatchOp α))
    (_hsort : List.Pairwise (fun a b : BatchOp α => cmp a.itm b.itm ≤ 0) ops)
    (hcb : ∀ n l, callb n l = none) :
    concatOps (ExecBatchOps s cmp callb ops).1 = ops ∧
    (ExecBatchOps s cmp callb ops).2 = BatchResult.ok := by
  have hmax : itmAt s (lastIdx s) = SEntry.maxItem :=
    itmAt_maxItem_of_ge s (le_refl _)
  have hnil : (goExec s cmp callb s.level 0 (lastIdx s) ops).2.1 = [] := by
    rcases gx_allmax s cmp callb hcb s.level 0 (lastIdx s) ops hmax with h | h
    · exact h
    · rw [itmAt_zero] at h
      exact absurd h (by simp)
  have hne := gx_noerr s cmp callb hcb s.level 0 (lastIdx s) ops
  have hcons := gx_conserve s cmp callb s.level 0 (lastIdx s) ops hne
  constructor
  · rw [hnil, List.append_nil] at hcons
    simpa [ExecBatchOps] using hcons
  · simp [ExecBatchOps, hnil, hne]

/-- Witness for C3 at a concrete skiplist, comparator, callback and sorted
op list. -/
theorem C3_execBatchOps_complete_witness :
    List.Pairwise (fun a b : BatchOp Nat => natCmp a.itm b.itm ≤ 0)
        [⟨0, 3⟩, ⟨1, 7⟩] ∧
      (∀ (n : Nat) (l : List (BatchOp Nat)),
        (fun (_ : Nat) (_ : List (BatchOp Nat)) => (none : Option Nat)) n l = none) ∧
      (concatOps (ExecBatchOps (BSkiplist.mk [(5, 1)] 1) natCmp
          (fun _ _ => (none : Option Nat)) [⟨0, 3⟩, ⟨1, 7⟩]).1 = [⟨0, 3⟩, ⟨1, 7⟩] ∧
        (ExecBatchOps (BSkiplist.mk [(5, 1)] 1) natCmp
          (fun _ _ => (none : Option Nat)) [⟨0, 3⟩, ⟨1, 7⟩]).2 = BatchResult.ok) :=
  ⟨by decide, fun _ _ => rfl,
    C3_execBatchOps_complete (BSkiplist.mk [(5, 1)] 1) natCmp
      (fun _ _ => (none : Option Nat)) [⟨0, 3⟩, ⟨1, 7⟩] (by decide) (fun _ _ => rfl)⟩

/-- Claim C4: every callback invocation of `ExecBatchOps` (all of which happen
at level 0) receives a nonempty maximal contiguous prefix of the remaining
sorted ops whose items compare strictly below the right neighbour's item
(`takeWhile` = `filter` on the remainder), and every delivered op lies in the
span `[curr, right)`. -/
theorem C4_level0_callback_spans {α ε : Type} (s : BSkiplist α)
    (cmp : α → α → Int) (callb : Nat → List (BatchOp α) → Option ε)
    (ops : List (BatchOp α)) (hc : IsComparator cmp)
    (hsort : List.Pairwise (fun a b : BatchOp α => cmp a.itm b.itm ≤ 0) ops) :
    ∀ en ∈ (ExecBatchOps s cmp callb ops).1,
      (∃ p0 pr, en.pre = p0 :: pr) ∧
      en.delivered = en.pre.takeWhile (belowIdx s cmp en.rightIdx) ∧
      en.delivered = en.pre.filter (belowIdx s cmp en.rightIdx) ∧
      (∀ op ∈ en.delivered,
        scompare cmp (itmAt s en.currIdx) (SEntry.mid op.itm) ≤ 0 ∧
        scompare cmp (SEntry.mid op.itm) (itmAt s en.rightIdx) < 0) := by
  intro en hen
  have hinv : ∀ (e0 : BatchOp α) (r : List (BatchOp α)), ops = e0 :: r →
      scompare cmp (itmAt s 0) (SEntry.mid e0.itm) ≤ 0 := by
    intro e0 r _
    rw [itmAt_zero]
    simp [scompare]
  exact (gx_inv s cmp callb hc s.level 0 (lastIdx s) ops hsort hinv).2 en
    (by simpa [ExecBatchOps] using hen)

/-- Witness for C4 at a concrete comparator, skiplist and sorted op list. -/
theorem C4_level0_callback_spans_witness :
    IsComparator natCmp ∧
      List.Pairwise (fun a b : BatchOp Nat => natCmp a.itm b.itm ≤ 0)
        [⟨0, 3⟩, ⟨1, 7⟩] ∧
      (∀ en ∈ (ExecBatchOps (BSkiplist.mk [(5, 1)] 1) natCmp
          (fun _ _ => (none : Option Nat)) [⟨0, 3⟩, ⟨1, 7⟩]).1,
        (∃ p0 pr, en.pre = p0 :: pr) ∧
        en.delivered = en.pre.takeWhile (belowIdx (BSkiplist.mk [(5, 1)] 1) natCmp en.rightIdx) ∧
        en.delivered = en.pre.filter (belowIdx (BSkiplist.mk [(5, 1)] 1) natCmp en.rightIdx) ∧
        (∀ op ∈ en.delivered,
          scompare natCmp (itmAt (BSkiplist.mk [(5, 1)] 1) en.currIdx) (SEntry.mid op.itm) ≤ 0 ∧
          scompare natCmp (SEntry.mid op.itm) (itmAt (BSkiplist.mk [(5, 1)] 1) en.rightIdx) < 0)) :=
  ⟨natCmp_isComparator, by decide,
    C4_level0_callback_spans (BSkiplist.mk [(5, 1)] 1) natCmp
      (fun _ _ => (none : Option Nat)) [⟨0, 3⟩, ⟨1, 7⟩] natCmp_isComparator (by decide)⟩

/-- Claim C2 (refuted): on the empty skiplist with a single op, a callback
returning the error `7` is invoked once (no further invocations), but
`ExecBatchOps` then hits the `len(remaining) > 0` check first — since the
error return path leaves the failed ops in `remaining` — and panics
("non-zero items remaining 1") instead of returning the error `7`. -/
theorem C2_callback_error_panics_not_returned :
    (ExecBatchOps (BSkiplist.mk ([] : List (Nat × Nat)) 0) natCmp
        (fun _ _ => (some 7 : Option Nat)) [⟨0, 5⟩]).1 =
      [⟨0, 1, [⟨0, 5⟩], [⟨0, 5⟩]⟩] ∧
    (ExecBatchOps (BSkiplist.mk ([] : List (Nat × Nat)) 0) natCmp
        (fun _ _ => (some 7 : Option Nat)) [⟨0, 5⟩]).2 =
      BatchResult.panicRemaining 1 ∧
    (ExecBatchOps (BSkiplist.mk ([] : List (Nat × Nat)) 0) natCmp
        (fun _ _ => (some 7 : Option Nat)) [⟨0, 5⟩]).2 ≠
      BatchResult.err 7 := by
  have hgo : goExec (BSkiplist.mk ([] : List (Nat × Nat)) 0) natCmp
      (fun _ _ => (some 7 : Option Nat)) 0 0 1 [⟨0, 5⟩] =
      ([⟨0, 1, [⟨0, 5⟩], [⟨0, 5⟩]⟩], [⟨0, 5⟩], some 7) := by
    rw [goExec.eq_def]
    norm_num [itmAt, lastIdx, getNextIdx, heightAt, scompare, natCmp, List.range']
  refine ⟨?_, ?_, ?_⟩ <;>
    simp [ExecBatchOps, lastIdx, hgo]

/-- A Nitro MVCC item: key bytes plus the born/dead sequence-number stamps
(`type Item struct { bornSn, deadSn uint32; data []byte }`, key abstracted
to `α`). -/
structure NItem (α : Type) where
  key : α
  bornSn : Nat
  deadSn : Nat
deriving DecidableEq, Repr

/-- The skip condition of `Iterator.skipUnwanted`
(`itm.bornSn > it.snap.sn || (itm.deadSn > 0 && itm.deadSn <= it.snap.sn)`). -/
def skipCond (sn : Nat) (itm : NItem α) : Bool :=
  decide (sn < itm.bornSn) || (decide (0 < itm.deadSn) && decide (itm.deadSn ≤ sn))

/-- The snapshot visibility predicate of the spec:
`visible(n, S) ≡ n.bornSn ≤ S ∧ (n.deadSn == 0 ∨ n.deadSn > S)`. -/
def visibleB (sn : Nat) (itm : NItem α) : Bool :=
  decide (itm.bornSn ≤ sn) && (decide (itm.deadSn = 0) || decide (sn < itm.deadSn))

theorem skipCond_eq_not_visibleB (sn : Nat) (itm : NItem α) :
    skipCond sn itm = ! visibleB sn itm := by
  simp only [skipCond, visibleB]
  by_cases h1 : sn < itm.bornSn <;> by_cases h2 : 0 < itm.deadSn <;>
    by_cases h3 : itm.deadSn ≤ sn <;>
      simp [h1, h2, h3] <;> omega

/-- `Iterator.skipUnwanted` of the Nitro snapshot iterator (identical in both
source variants): starting from the underlying cursor, advance with
`it.iter.Next()` while the current item is born after the snapshot or died at
or before it.  The underlying level-0 cursor is the suffix of items from the
cursor position on; `[]` is the tail sentinel (`!it.iter.Valid()`). -/
def skipUnwanted (sn : Nat) : List (NItem α) → List (NItem α)
  | [] => []
  | itm :: rest => if skipCond sn itm then skipUnwanted sn rest else itm :: rest

theorem skipUnwanted_eq_dropWhile (sn : Nat) (l : List (NItem α)) :
    skipUnwanted sn l = l.dropWhile (skipCond sn) := by
  induction l with
  | nil => rfl
  | cons itm rest ih =>
    rw [skipUnwanted, List.dropWhile_cons]
    by_cases h : skipCond sn itm <;> simp [h, ih]

theorem skipUnwanted_length_le (sn : Nat) (l : List (NItem α)) :
    (skipUnwanted sn l).length ≤ l.length := by
  rw [skipUnwanted_eq_dropWhile]
  exact (List.dropWhile_sublist _).length_le

/-- State of the `endItm` variant of the Nitro snapshot iterator
(`src/unnamed/part_000`): the snapshot's underlying level-0 item sequence
(`store`), the snapshot sequence number, the underlying skiplist cursor as
the remaining suffix of `store` (`[]` when the underlying cursor sits on the
tail sentinel), and the optional `endItm` end bound (key only).  Block-store
fields (`blockBuf`, `block`, `curr`) are absent: this models the
`HasBlockStore() == false` configuration of the core spec; the refresh
bookkeeping (`count`, `refreshRate`) is omitted as `Refresh` re-seeks the
same key (`refreshRate = 0`, the default, never triggers it). -/
structure NIter (α : Type) where
  store : List (NItem α)
  sn : Nat
  rest : List (NItem α)
  endItm : Option α
deriving Repr

namespace NIter

variable {α : Type}

/-- `Iterator.SeekFirst`: underlying `SeekFirst` (cursor to `head.next[0]`,
i.e. the full store) followed by `skipUnwanted`. -/
def seekFirst (it : NIter α) : NIter α :=
  { it with rest := skipUnwanted it.sn it.store }

/-- `Iterator.Seek` of the `endItm` variant, without block store: `nil` key
delegates to `SeekFirst`; otherwise the underlying `it.iter.Seek` positions
the cursor on the first node with `cmp(node, key) ≥ 0` (modelled from the
spec: `findPath` with no skip function; on the sorted level-0 chain this is
`dropWhile (cmp < 0)`), then `skipUnwanted`.  A `none` key models the Go
`bs == nil`. -/
def seek (cmp : α → α → Int) (k : Option α) (it : NIter α) : NIter α :=
  match k with
  | none => it.seekFirst
  | some b =>
      { it with
        rest := skipUnwanted it.sn
          (it.store.dropWhile (fun x => decide (cmp x.key b < 0))) }

/-- `Iterator.SetEnd`: records the end item when the key is non-empty
(`len(bs) > 0`); a `none` argument models a nil/empty key. -/
def setEnd (k : Option α) (it : NIter α) : NIter α :=
  match k with
  | some b => { it with endItm := some b }
  | none => it

/-- `Iterator.Valid` of the `endItm` variant: the underlying cursor must be
valid, and when `endItm` is set the current item must compare `< 0` against
it. -/
def valid (cmp : α → α → Int) (it : NIter α) : Bool :=
  match it.rest with
  | [] => false
  | x :: _ =>
    match it.endItm with
    | some e => if 0 ≤ cmp x.key e then false else true
    | none => true

/-- `Iterator.GetNode` (the current node / item). -/
def getNode (it : NIter α) : Option (NItem α) := it.rest.head?

/-- `Iterator.Get` (the current item's key bytes), without block store. -/
def get (it : NIter α) : Option α := it.rest.head?.map (·.key)

/-- `Iterator.Next` of the `endItm` variant, without block store: underlying
`it.iter.Next()` (one step along level 0; a no-op on the tail sentinel)
followed by `skipUnwanted`. -/
def next (it : NIter α) : NIter α :=
  { it with rest := skipUnwanted it.sn it.rest.tail }

/-- The sequence of items emitted by a scan loop
`for ; it.Valid(); it.Next() { emit it.GetNode() }`. -/
def emit (cmp : α → α → Int) (it : NIter α) : List (NItem α) :=
  match hr : it.rest with
  | [] => []
  | x :: _ => if valid cmp it then x :: emit cmp (next it) else []
termination_by it.rest.length
decreasing_by
  simp only [next]
  have h1 := skipUnwanted_length_le it.sn it.rest.tail
  rw [hr] at h1 ⊢
  simp only [List.tail_cons] at h1
  simp only [List.tail_cons, List.length_cons]
  omega

end NIter

theorem emit_skipUnwanted {α : Type} (cmp : α → α → Int) (sn : Nat)
    (store : List (NItem α)) :
    ∀ l : List (NItem α),
      NIter.emit cmp ⟨store, sn, skipUnwanted sn l, none⟩ =
        l.filter (visibleB sn) := by
  intro l
  induction l with
  | nil =>
    rw [NIter.emit.eq_def]
    simp [skipUnwanted]
  | cons a t ih =>
    by_cases h : skipCond sn a
    · have hva : visibleB sn a = false := by
        have := skipCond_eq_not_visibleB sn a
        rw [h] at this
        simpa using this.symm
      rw [skipUnwanted, if_pos h, List.filter_cons, hva]
      simpa using ih
    · have hva : visibleB sn a = true := by
        have := skipCond_eq_not_visibleB sn a
        rw [Bool.not_eq_true] at h
        rw [h] at this
        simpa using this.symm
      rw [skipUnwanted, if_neg (by simp [h])]
      rw [NIter.emit.eq_def]
      simp only [NIter.valid, NIter.next, List.tail_cons, List.filter_cons, hva,
        if_true]
      simpa using ih

/-- Claim C1: for a snapshot with sequence number `sn`, `skipUnwanted` leaves
the cursor exactly on items satisfying the visibility predicate
`bornSn ≤ sn ∧ (deadSn = 0 ∨ deadSn > sn)`: the cursor item after any
`skipUnwanted` is visible, and a full scan (`SeekFirst` then `Next` while
`Valid`, and likewise after `Seek(k)`) emits precisely the visible items, in
order — every item with `bornSn > sn`, or with `deadSn > 0 ∧ deadSn ≤ sn`, is
skipped over. -/
theorem C1_skipUnwanted_visibility {α : Type} (cmp : α → α → Int) (sn : Nat)
    (store : List (NItem α)) :
    (∀ (l : List (NItem α)) (x : NItem α) (r : List (NItem α)),
      skipUnwanted sn l = x :: r → visibleB sn x = true) ∧
    NIter.emit cmp (NIter.seekFirst ⟨store, sn, [], none⟩) =
      store.filter (visibleB sn) ∧
    (∀ b : α,
      NIter.emit cmp (NIter.seek cmp (some b) ⟨store, sn, [], none⟩) =
        (store.dropWhile (fun x => decide (cmp x.key b < 0))).filter
          (visibleB sn)) := by
  refine ⟨?_, ?_, ?_⟩
  · intro l
    induction l with
    | nil => intro x r h; simp [skipUnwanted] at h
    | cons a t ih =>
      intro x r h
      rw [skipUnwanted] at h
      by_cases hs : skipCond sn a
      · rw [if_pos hs] at h
        exact ih x r h
      · rw [if_neg (by simp [hs])] at h
        rw [Bool.not_eq_true] at hs
        have hx : a = x := by injection h
        subst hx
        have := skipCond_eq_not_visibleB sn a
        rw [hs] at this
        simpa using this.symm
  · exact emit_skipUnwanted cmp sn store store
  · intro b
    exact emit_skipUnwanted cmp sn store _

/-- Claim C8: on a level-0 chain sorted by the comparator (equal keys in
insertion order), a full snapshot scan emits a subsequence of the chain —
so equal-key duplicates keep their level-0 insertion order — whose keys are
non-decreasing: each adjacent pair compares `< 0` (strictly increasing) or
`= 0` (duplicate). -/
theorem C8_iteration_sorted {α : Type} (cmp : α → α → Int) (sn : Nat)
    (store : List (NItem α))
    (hsort : store.Pairwise (fun a b : NItem α => cmp a.key b.key ≤ 0)) :
    (NIter.emit cmp (NIter.seekFirst ⟨store, sn, [], none⟩)).Sublist store ∧
    (NIter.emit cmp (NIter.seekFirst ⟨store, sn, [], none⟩)).Pairwise
      (fun a b : NItem α => cmp a.key b.key < 0 ∨ cmp a.key b.key = 0) := by
  have hemit : NIter.emit cmp (NIter.seekFirst ⟨store, sn, [], none⟩) =
      store.filter (visibleB sn) := emit_skipUnwanted cmp sn store store
  constructor
  · rw [hemit]
    exact List.filter_sublist _
  · rw [hemit]
    have := List.Pairwise.filter (R := fun a b : NItem α => cmp a.key b.key ≤ 0)
      (visibleB sn) hsort
    exact this.imp (by intro a b h; omega)

/-- Witness for C8 at a concrete sorted store with a duplicate key. -/
theorem C8_iteration_sorted_witness :
    ([⟨1, 1, 0⟩, ⟨2, 1, 0⟩, ⟨2, 2, 0⟩, ⟨4, 1, 2⟩] :
        List (NItem Nat)).Pairwise (fun a b => natCmp a.key b.key ≤ 0) ∧
    ((NIter.emit natCmp (NIter.seekFirst
        ⟨[⟨1, 1, 0⟩, ⟨2, 1, 0⟩, ⟨2, 2, 0⟩, ⟨4, 1, 2⟩], 1, [], none⟩)).Sublist
        [⟨1, 1, 0⟩, ⟨2, 1, 0⟩, ⟨2, 2, 0⟩, ⟨4, 1, 2⟩] ∧
      (NIter.emit natCmp (NIter.seekFirst
          ⟨[⟨1, 1, 0⟩, ⟨2, 1, 0⟩, ⟨2, 2, 0⟩, ⟨4, 1, 2⟩], 1, [], none⟩)).Pairwise
        (fun a b : NItem Nat => natCmp a.key b.key < 0 ∨ natCmp a.key b.key = 0)) :=
  ⟨by decide,
    C8_iteration_sorted natCmp 1 [⟨1, 1, 0⟩, ⟨2, 1, 0⟩, ⟨2, 2, 0⟩, ⟨4, 1, 2⟩]
      (by decide)⟩

/-- Claim C9: in the `endItm` iterator variant, `Seek(nil)` delegates to
`SeekFirst`: the resulting state, and hence `Valid`, `Get` and `GetNode`, are
identical. -/
theorem C9_seek_nil_is_seekFirst {α : Type} (cmp : α → α → Int)
    (it : NIter α) :
    NIter.seek cmp none it = NIter.seekFirst it ∧
    NIter.valid cmp (NIter.seek cmp none it) =
      NIter.valid cmp (NIter.seekFirst it) ∧
    NIter.get (NIter.seek cmp none it) = NIter.get (NIter.seekFirst it) ∧
    NIter.getNode (NIter.seek cmp none it) =
      NIter.getNode (NIter.seekFirst it) :=
  ⟨rfl, rfl, rfl, rfl⟩

theorem emit_eq_nil {α : Type} (cmp : α → α → Int) (it : NIter α)
    (hr : it.rest = []) : NIter.emit cmp it = [] := by
  rw [NIter.emit.eq_def]
  split
  · rfl
  · rename_i x tail h
    rw [hr] at h
    cases h

theorem emit_eq_cons {α : Type} (cmp : α → α → Int) (it : NIter α)
    (y : NItem α) (t : List (NItem α)) (hr : it.rest = y :: t) :
    NIter.emit cmp it =
      if NIter.valid cmp it then y :: NIter.emit cmp (NIter.next it)
      else [] := by
  rw [NIter.emit.eq_def]
  split
  · rename_i h
    rw [hr] at h
    cases h
  · rename_i x tail h
    rw [hr] at h
    injection h with h1 h2
    rw [h1]

/-- Claim C7 (amended part): the `endItm` iterator variant honors `SetEnd`.
After `SetEnd(k)` with a non-empty key the bound is recorded; `SeekFirst`,
`Seek` and `Next` preserve it; whenever the bound is set, `Valid` returns
`false` as soon as the current item compares `≥ 0` against it — so the
current item of a valid iterator is `< 0` against the bound and a scan never
emits an item at or beyond the end key. -/
theorem C7_endItm_honors_setEnd {α : Type} (cmp : α → α → Int) (k : α) :
    (∀ it : NIter α, (NIter.setEnd (some k) it).endItm = some k) ∧
    (∀ (it : NIter α) (x : NItem α), it.endItm = some k →
      NIter.valid cmp it = true → NIter.getNode it = some x →
      cmp x.key k < 0) ∧
    (∀ (it : NIter α) (b : Option α),
      (NIter.seekFirst it).endItm = it.endItm ∧
      (NIter.next it).endItm = it.endItm ∧
      (NIter.seek cmp b it).endItm = it.endItm ∧
      (NIter.setEnd (some k) (NIter.seekFirst it)).rest =
        (NIter.seekFirst it).rest) ∧
    (∀ (it : NIter α) (x : NItem α), it.endItm = some k →
      x ∈ NIter.emit cmp it → cmp x.key k < 0) := by
  have hvalid : ∀ (it : NIter α) (x : NItem α), it.endItm = some k →
      NIter.valid cmp it = true → NIter.getNode it = some x →
      cmp x.key k < 0 := by
    intro it x hend hv hget
    unfold NIter.valid at hv
    unfold NIter.getNode at hget
    cases hr : it.rest with
    | nil =>
      rw [hr] at hget
      simp at hget
    | cons y t =>
      rw [hr] at hv hget
      rw [hend] at hv
      simp only [List.head?_cons, Option.some.injEq] at hget
      rw [← hget]
      by_cases hle : 0 ≤ cmp y.key k
      · simp only [if_pos hle] at hv
        simp at hv
      · omega
  refine ⟨fun it => rfl, hvalid, fun it b => ⟨rfl, rfl, ?_, rfl⟩, ?_⟩
  · cases b <;> rfl
  · intro it x hend hmem
    induction it using NIter.emit.induct cmp with
    | case1 it hr =>
      rw [emit_eq_nil cmp it hr] at hmem
      simp at hmem
    | case2 it y t hr hv ih =>
      rw [emit_eq_cons cmp it y t hr, if_pos hv] at hmem
      rcases List.mem_cons.1 hmem with hmem2 | hmem2
      · subst hmem2
        exact hvalid it x hend hv (by unfold NIter.getNode; rw [hr]; rfl)
      · exact ih (by unfold NIter.next; exact hend) hmem2
    | case3 it y t hr hv =>
      rw [emit_eq_cons cmp it y t hr, if_neg hv] at hmem
      simp at hmem

/-- State of the stale Nitro snapshot iterator variant in `src/iterator.go`:
no `endItm` field and no `SetEnd` method; `Valid` delegates to the underlying
skiplist iterator with no end bound.  As for `NIter`, the block-store fields
and the refresh bookkeeping are omitted (`HasBlockStore() == false`,
`refreshRate = 0`). -/
structure V1Iter (α : Type) where
  store : List (NItem α)
  sn : Nat
  rest : List (NItem α)
deriving Repr

namespace V1Iter

variable {α : Type}

/-- `Iterator.Valid` of `src/iterator.go`: `return it.iter.Valid()` — no end
bound is consulted. -/
def valid (it : V1Iter α) : Bool := !it.rest.isEmpty

/-- `Iterator.Get` without a block store. -/
def get (it : V1Iter α) : Option α := it.rest.head?.map (·.key)

/-- `Iterator.SeekFirst`: underlying `SeekFirst` then `skipUnwanted`. -/
def seekFirst (it : V1Iter α) : V1Iter α :=
  { it with rest := skipUnwanted it.sn it.store }

/-- `Iterator.Next` without a block store: underlying `Next` then
`skipUnwanted`. -/
def next (it : V1Iter α) : V1Iter α :=
  { it with rest := skipUnwanted it.sn it.rest.tail }

/-- `Iterator.Seek` of `src/iterator.go`, without a block store: it calls
`it.iter.SeekPrev(itm)` — which (modelled from the spec's `findPath`) lands
on the first node with `cmp ≥ 0` when the key is found, and otherwise falls
back to the predecessor unless that is the head sentinel — then
`skipUnwanted`; the trailing block-store `seek(bs)` call is a no-op when
`HasBlockStore()` is false. -/
def seek (cmp : α → α → Int) (b : α) (it : V1Iter α) : V1Iter α :=
  let pre := it.store.takeWhile (fun x => decide (cmp x.key b < 0))
  let suf := it.store.dropWhile (fun x => decide (cmp x.key b < 0))
  let found := match suf.head? with
    | some x => decide (cmp x.key b = 0)
    | none => false
  let rest0 :=
    if found = false then
      match pre.getLast? with
      | some p => p :: suf
      | none => suf
    else suf
  { it with rest := skipUnwanted it.sn rest0 }

end V1Iter

/-- Claim C5 (refuted on the `src/iterator.go` variant): with no block store,
store `[{key 1, bornSn 1, deadSn 0}]` and snapshot `sn = 1`, `Seek(2)` on the
`SeekPrev`-based variant leaves the iterator valid on the visible item with
key `1`, which compares `< 0` against the sought key `2` — contradicting both
the claim and the function's own doc comment ("Seek to a specified key or the
next bigger one").  On the same input the `endItm` (`findPath`-seek) variant
correctly becomes invalid, as no item `≥ 2` exists. -/
theorem C5_v1_seek_lands_below_key :
    (V1Iter.seek natCmp 2
        (⟨[⟨1, 1, 0⟩], 1, []⟩ : V1Iter Nat)).valid = true ∧
    (V1Iter.seek natCmp 2
        (⟨[⟨1, 1, 0⟩], 1, []⟩ : V1Iter Nat)).get = some 1 ∧
    natCmp 1 2 < 0 ∧
    NIter.valid natCmp (NIter.seek natCmp (some 2)
        (⟨[⟨1, 1, 0⟩], 1, [], none⟩ : NIter Nat)) = false := by
  refine ⟨by decide, by decide, by decide, by decide⟩

/-- Counterexample to claim C7 as stated ("on both iterator variants"): the
`src/iterator.go` variant has no `SetEnd`/`endItm` at all (see `V1Iter`), and
its `Valid` consults no end bound: with intended end key `3`, the iterator is
valid on (and its scan emits) the item with key `5`, which compares `≥ 0`
against `3`. -/
theorem C7_counterexample_v1_ignores_end :
    (V1Iter.seekFirst (⟨[⟨5, 1, 0⟩], 1, []⟩ : V1Iter Nat)).valid = true ∧
    (V1Iter.seekFirst (⟨[⟨5, 1, 0⟩], 1, []⟩ : V1Iter Nat)).get = some 5 ∧
    0 ≤ natCmp 5 3 := by
  refine ⟨by decide, by decide, by decide⟩

/-- Witness for C7's amended theorem at a concrete snapshot iterator with end
key `3` and a visible item with key `1`. -/
theorem C7_endItm_honors_setEnd_witness :
    (NIter.setEnd (some 3)
        (⟨[⟨1, 1, 0⟩], 1, [⟨1, 1, 0⟩], none⟩ : NIter Nat)).endItm = some 3 ∧
    natCmp 1 3 < 0 :=
  ⟨(C7_endItm_honors_setEnd natCmp 3).1 _,
    (C7_endItm_honors_setEnd natCmp 3).2.1
      (⟨[⟨1, 1, 0⟩], 1, [⟨1, 1, 0⟩], some 3⟩ : NIter Nat) ⟨1, 1, 0⟩ rfl
      (by decide) rfl⟩

/-- Modelled from the spec: `findPath2` with a skip function lets the MVCC
layer "treat not-yet-visible nodes as if absent during seek", so the search
runs over the non-skipped nodes of the level-0 chain. -/
def fp2NotSkipped {α : Type} (skip : α → Bool) (ns : List α) : List α :=
  ns.filter (fun a => ! skip a)

/-- Modelled from the spec: `preds[0]` of `findPath2` — the last non-skipped
node below the key (`none` = the `head` sentinel). -/
def fp2Pred {α : Type} (cmp : α → α → Int) (skip : α → Bool) (k : α)
    (ns : List α) : Option α :=
  ((fp2NotSkipped skip ns).takeWhile (fun a => decide (cmp a k < 0))).getLast?

/-- Modelled from the spec: the chain from `succs[0]` of `findPath2` on — the
non-skipped nodes from the first one with `cmp ≥ 0` (empty = the `tail`
sentinel). -/
def fp2SuccSuffix {α : Type} (cmp : α → α → Int) (skip : α → Bool) (k : α)
    (ns : List α) : List α :=
  (fp2NotSkipped skip ns).dropWhile (fun a => decide (cmp a k < 0))

/-- `findPath2` returns non-nil iff `cmp(succs[0], key) == 0`; this is the
`found` result of `Iterator.SeekWithSkip`. -/
def fp2Found {α : Type} (cmp : α → α → Int) (skip : α → Bool) (k : α)
    (ns : List α) : Bool :=
  match (fp2SuccSuffix cmp skip k ns).head? with
  | some a => decide (cmp a k = 0)
  | none => false

/-- The cursor item after `Iterator.SeekPrev(itm, skip)` of
`src/skiplist/batch_ops.go`: `SeekWithSkip` leaves `curr = succs[0]`; when
the item was not found and `prev` is not the head sentinel the cursor moves
back to `prev` (`none` = the `tail` sentinel). -/
def seekPrevCurr {α : Type} (cmp : α → α → Int) (skip : α → Bool) (k : α)
    (ns : List α) : Option α :=
  if fp2Found cmp skip k ns = false then
    match fp2Pred cmp skip k ns with
    | some p => some p
    | none => (fp2SuccSuffix cmp skip k ns).head?
  else (fp2SuccSuffix cmp skip k ns).head?

/-- Claim C6: on a sorted chain, when some non-skipped node compares `≤ 0`
against the key, `SeekPrev(k, skip)` puts the cursor on the largest
non-skipped node with `cmp(node, k) ≤ 0`: the cursor is a non-skipped node
`≤ k`, no non-skipped node `≤ k` is strictly greater, and when `k` is present
among non-skipped nodes the cursor compares `= 0` (the exact node; otherwise
it is the predecessor). -/
theorem C6_seekPrev_largest_le {α : Type} (cmp : α → α → Int)
    (skip : α → Bool) (k : α) (ns : List α) (hc : IsComparator cmp)
    (hsort : ns.Pairwise (fun a b => cmp a b ≤ 0))
    (hex : ∃ a ∈ fp2NotSkipped skip ns, cmp a k ≤ 0) :
    ∃ c, seekPrevCurr cmp skip k ns = some c ∧
      c ∈ fp2NotSkipped skip ns ∧
      cmp c k ≤ 0 ∧
      (∀ m ∈ fp2NotSkipped skip ns, cmp m k ≤ 0 → ¬ cmp c m < 0) ∧
      ((∃ a ∈ fp2NotSkipped skip ns, cmp a k = 0) → cmp c k = 0) := by
  have hself : ∀ a : α, ¬ cmp a a < 0 := by
    intro a h
    have h1 := (hc.sym a a).2
    have h2 := (hc.sym a a).1
    omega
  have hflip : ∀ a b : α, cmp a b < 0 → ¬ cmp b a ≤ 0 := by
    intro a b h hba
    have := (hc.sym a b).2 hba
    omega
  set L := fp2NotSkipped skip ns with hL
  have hLsort : L.Pairwise (fun a b => cmp a b ≤ 0) :=
    List.Pairwise.filter _ hsort
  set P := L.takeWhile (fun a => decide (cmp a k < 0)) with hP
  set S := L.dropWhile (fun a => decide (cmp a k < 0)) with hS
  have hPS : P ++ S = L := List.takeWhile_append_dropWhile ..
  have hSdef : fp2SuccSuffix cmp skip k ns = S := by rw [fp2SuccSuffix, hS, hL]
  have hPdef : fp2Pred cmp skip k ns = P.getLast? := by rw [fp2Pred, hP, hL]
  have hPmem : ∀ x ∈ P, cmp x k < 0 := by
    intro x hx
    have := List.mem_takeWhile_imp hx
    simpa using this
  have hcross : ∀ p ∈ P, ∀ s ∈ S, cmp p s ≤ 0 := by
    have := (List.pairwise_append.1 (hPS ▸ hLsort)).2.2
    exact this
  have hPpw : P.Pairwise (fun a b => cmp a b ≤ 0) :=
    (List.pairwise_append.1 (hPS ▸ hLsort)).1
  have hSpw : S.Pairwise (fun a b => cmp a b ≤ 0) :=
    (List.pairwise_append.1 (hPS ▸ hLsort)).2.1
  have hSmemL : ∀ x ∈ S, x ∈ L := by
    intro x hx
    rw [← hPS]
    exact List.mem_append_right _ hx
  have hPmemL : ∀ x ∈ P, x ∈ L := by
    intro x hx
    rw [← hPS]
    exact List.mem_append_left _ hx
  have hShead : ∀ s0 S', S = s0 :: S' → ¬ cmp s0 k < 0 := by
    intro s0 S' h
    have := dropWhile_head_not (fun a => decide (cmp a k < 0)) L s0 S' (by rw [← hS, h])
    simpa using this
  rcases hfound : fp2Found cmp skip k ns with _ | _
  · -- not found
    rcases hpred : fp2Pred cmp skip k ns with _ | p
    · -- pred = head: no non-skipped node < k; hex forces a contradiction
      exfalso
      have hPnil : P = [] := by
        rw [hPdef] at hpred
        simpa [List.getLast?_eq_none_iff] using hpred
      have hLS : L = S := by rw [← hPS, hPnil]; rfl
      rcases hex with ⟨a, haL, hak⟩
      rw [hLS] at haL
      cases hSc : S with
      | nil => rw [hSc] at haL; simp at haL
      | cons s0 S' =>
        have hs0 : ¬ cmp s0 k < 0 := hShead s0 S' hSc
        have hs0ne : ¬ cmp s0 k = 0 := by
          intro h0
          rw [fp2Found, hSdef, hSc] at hfound
          simp [h0] at hfound
        rw [hSc] at haL
        rcases List.mem_cons.1 haL with rfl | haS'
        · omega
        · have hpw' : List.Pairwise (fun x y => cmp x y ≤ 0) (s0 :: S') :=
            hSc ▸ hSpw
          have : cmp s0 a ≤ 0 := List.rel_of_pairwise_cons hpw' haS'
          have := hc.le_trans s0 a k this hak
          omega
    · -- cursor = pred p, the largest node < k
      have hcur : seekPrevCurr cmp skip k ns = some p := by
        rw [seekPrevCurr, if_pos hfound, hpred]
      rw [hPdef] at hpred
      have hpP : p ∈ P := List.mem_of_getLast?_eq_some hpred
      have hpk : cmp p k < 0 := hPmem p hpP
      rcases List.getLast?_eq_some_iff.1 hpred with ⟨P0, hP0⟩
      have hnoS : ∀ m ∈ S, ¬ cmp m k ≤ 0 := by
        intro m hm hmk
        cases hSc : S with
        | nil => rw [hSc] at hm; simp at hm
        | cons s0 S' =>
          have hs0 : ¬ cmp s0 k < 0 := hShead s0 S' hSc
          have hs0ne : ¬ cmp s0 k = 0 := by
            intro h0
            rw [fp2Found, hSdef, hSc] at hfound
            simp [h0] at hfound
          rw [hSc] at hm
          rcases List.mem_cons.1 hm with rfl | hmS'
          · omega
          · have hpw' : List.Pairwise (fun x y => cmp x y ≤ 0) (s0 :: S') :=
              hSc ▸ hSpw
            have : cmp s0 m ≤ 0 := List.rel_of_pairwise_cons hpw' hmS'
            have := hc.le_trans s0 m k this hmk
            omega
      refine ⟨p, hcur, hPmemL p hpP, le_of_lt hpk, ?_, ?_⟩
      · intro m hmL hmk hpm
        rw [← hPS] at hmL
        rcases List.mem_append.1 hmL with hmP | hmS
        · rw [hP0] at hmP
          rcases List.mem_append.1 hmP with hmP0 | hmp
          · have : cmp m p ≤ 0 :=
              (List.pairwise_append.1 (hP0 ▸ hPpw)).2.2 m hmP0 p (by simp)
            exact hflip p m hpm this
          · have : m = p := by simpa using hmp
            subst this
            exact hself m hpm
        · exact hnoS m hmS hmk
      · intro ⟨a, haL, hak⟩
        exfalso
        rw [← hPS] at haL
        rcases List.mem_append.1 haL with haP | haS
        · have := hPmem a haP
          omega
        · exact hnoS a haS (by omega)
  · -- found: cursor = succs[0], the exact (first non-skipped) node = k
    rw [fp2Found, hSdef] at hfound
    cases hSc : S.head? with
    | none => rw [hSc] at hfound; simp at hfound
    | some s0 =>
      rw [hSc] at hfound
      have hs0k : cmp s0 k = 0 := by simpa using hfound
      have hcur : seekPrevCurr cmp skip k ns = some s0 := by
        rw [seekPrevCurr,
          if_neg (by rw [fp2Found, hSdef, hSc]; simp [hs0k]), hSdef, hSc]
      have hSS : ∃ S', S = s0 :: S' := by
        cases h : S with
        | nil => rw [h] at hSc; simp at hSc
        | cons y t =>
          rw [h] at hSc
          simp at hSc
          exact ⟨t, by rw [hSc]⟩
      rcases hSS with ⟨S', hSc2⟩
      have hs0L : s0 ∈ L := hSmemL s0 (by rw [hSc2]; simp)
      refine ⟨s0, hcur, hs0L, by omega, ?_, fun _ => hs0k⟩
      intro m hmL hmk hs0m
      rw [← hPS] at hmL
      rcases List.mem_append.1 hmL with hmP | hmS
      · have : cmp m s0 ≤ 0 := hcross m hmP s0 (by rw [hSc2]; simp)
        exact hflip s0 m hs0m this
      · rw [hSc2] at hmS
        rcases List.mem_cons.1 hmS with rfl | hmS'
        · exact hself m hs0m
        · have := hc.lt_le_trans s0 m k hs0m hmk
          omega

/-- Witness for C6: chain `[1, 2, 3, 5]`, key `3` with the exact node `3`
skipped — the cursor must land on the predecessor `2`. -/
theorem C6_seekPrev_largest_le_witness :
    IsComparator natCmp ∧
    List.Pairwise (fun a b => natCmp a b ≤ 0) [1, 2, 3, 5] ∧
    (∃ a ∈ fp2NotSkipped (fun a => decide (a = 3)) [1, 2, 3, 5],
      natCmp a 3 ≤ 0) ∧
    (∃ c, seekPrevCurr natCmp (fun a => decide (a = 3)) 3 [1, 2, 3, 5] =
        some c ∧
      c ∈ fp2NotSkipped (fun a => decide (a = 3)) [1, 2, 3, 5] ∧
      natCmp c 3 ≤ 0 ∧
      (∀ m ∈ fp2NotSkipped (fun a => decide (a = 3)) [1, 2, 3, 5],
        natCmp m 3 ≤ 0 → ¬ natCmp c m < 0) ∧
      ((∃ a ∈ fp2NotSkipped (fun a => decide (a = 3)) [1, 2, 3, 5],
        natCmp a 3 = 0) → natCmp c 3 = 0)) :=
  ⟨natCmp_isComparator, by decide, by decide,
    C6_seekPrev_largest_le natCmp (fun a => decide (a = 3)) 3 [1, 2, 3, 5]
      natCmp_isComparator (by decide) (by decide)⟩

/-- A skiplist node as seen by the level-0 iterator: its item and the
deletion mark carried by its next-pointer (set by `softDelete`). -/
structure SkNode (α : Type) where
  itm : α
  marked : Bool
deriving DecidableEq, Repr

/-- State of the skiplist `Iterator` of `src/skiplist/batch_ops.go` as a
level-0 zipper: `left` holds the nodes before the cursor (nearest first, so
`prev` is `left.head?`, with the `head` sentinel below them), `curr` the
cursor node (`none` = the `tail` sentinel), `right` the nodes after it, plus
the `valid` flag and the `deleted` flag set by `Delete`.  This is the
single-cursor view: `helpDelete` succeeds (`prev` is accurate, no concurrent
writer), so the CAS-failure branch of `Next` that re-runs `findPath` and the
`prev == nil` state left by `SeekPrev` do not arise. -/
structure SkIter (α : Type) where
  left : List (SkNode α)
  curr : Option (SkNode α)
  right : List (SkNode α)
  valid : Bool
  deleted : Bool
deriving DecidableEq, Repr

namespace SkIter

variable {α : Type}

/-- The side effect of `Iterator.Valid`: `if it.valid && it.curr == it.s.tail
{ it.valid = false }`. -/
def validRefresh (it : SkIter α) : SkIter α :=
  if it.valid && it.curr.isNone then { it with valid := false } else it

/-- `Iterator.Valid` (its returned value). -/
def validQ (it : SkIter α) : Bool := it.validRefresh.valid

/-- `Iterator.Get` / `GetNode` (the current node; `none` = tail sentinel). -/
def getNode (it : SkIter α) : Option (SkNode α) := it.curr

/-- `Iterator.Next`: a `deleted` flag left by `Delete` absorbs the call;
otherwise, when valid, the cursor advances one level-0 step — if the current
node is marked (`next, deleted := it.curr.getNext(0)`) it is help-deleted
(unlinked, `prev` unchanged), else `prev` moves to the old current node. -/
def next (it : SkIter α) : SkIter α :=
  if it.deleted then { it with deleted := false }
  else
    let it1 := it.validRefresh
    if !it1.valid then it1
    else
      let it2 := { it1 with valid := true }
      match it2.curr with
      | none => it2
      | some c =>
        if c.marked then
          match it2.right with
          | [] => { it2 with curr := none }
          | n :: rs => { it2 with curr := some n, right := rs }
        else
          match it2.right with
          | [] => { it2 with left := c :: it2.left, curr := none }
          | n :: rs =>
            { it2 with left := c :: it2.left, curr := some n, right := rs }

/-- `Skiplist.softDelete` applied to the current node: sets the deletion mark
on its next-pointer. -/
def softDeleteCurr (it : SkIter α) : SkIter α :=
  match it.curr with
  | some c => { it with curr := some { c with marked := true } }
  | none => it

/-- `Iterator.Delete`: soft-delete the current node, run `Next()` (which
observes the mark, help-deletes and moves to the next node), then set the
`deleted` flag. -/
def delete (it : SkIter α) : SkIter α :=
  let it1 := (it.softDeleteCurr).next
  { it1 with deleted := true }

end SkIter

/-- Claim C10: for the skiplist iterator in a clean iteration state, after
`Delete()` the deleted node is unlinked and the cursor rests on the
immediately following node with the `deleted` flag set; the next `Next()`
call is absorbed by that flag (the whole state except the flag is unchanged),
so a `Delete(); Next()` loop skips no item; and at the tail sentinel `Valid`
is `false` and `Next` never moves the cursor. -/
theorem C10_delete_next_semantics {α : Type} :
    (∀ (it : SkIter α) (c : SkNode α), it.deleted = false → it.valid = true →
      it.curr = some c →
      it.delete = ⟨it.left, it.right.head?, it.right.tail, true, true⟩) ∧
    (∀ it : SkIter α, it.deleted = true →
      it.next = { it with deleted := false }) ∧
    (∀ (it : SkIter α) (c : SkNode α), it.deleted = false → it.valid = true →
      it.curr = some c →
      it.delete.next = ⟨it.left, it.right.head?, it.right.tail, true, false⟩) ∧
    (∀ it : SkIter α, it.curr = none → it.deleted = false →
      SkIter.validQ it = false ∧
      it.next.left = it.left ∧ it.next.curr = none ∧
        it.next.right = it.right) := by
  have habsorb : ∀ it : SkIter α, it.deleted = true →
      it.next = { it with deleted := false } := by
    intro it h
    rw [SkIter.next, if_pos h]
  have hdel : ∀ (it : SkIter α) (c : SkNode α), it.deleted = false →
      it.valid = true → it.curr = some c →
      it.delete = ⟨it.left, it.right.head?, it.right.tail, true, true⟩ := by
    intro it c hdf hv hc
    rw [SkIter.delete, SkIter.softDeleteCurr, hc]
    rw [SkIter.next]
    simp only [hdf, if_false, Bool.false_eq_true, ite_false]
    rw [SkIter.validRefresh]
    simp only [hv, hc]
    cases hr : it.right with
    | nil => simp [hr]
    | cons n rs => simp [hr]
  refine ⟨hdel, habsorb, ?_, ?_⟩
  · intro it c hdf hv hc
    rw [hdel it c hdf hv hc, habsorb _ rfl]
  · intro it hc hdf
    constructor
    · rw [SkIter.validQ, SkIter.validRefresh, hc]
      cases hv : it.valid <;> simp [hv]
    · rw [SkIter.next]
      simp only [hdf, Bool.false_eq_true, ite_false]
      rw [SkIter.validRefresh]
      simp only [hc]
      cases hv : it.valid <;> simp [hv, hc]

/-- Witness for C10 at a concrete two-node iterator state positioned on the
first node. -/
theorem C10_delete_next_semantics_witness :
    (SkIter.delete ⟨[], some ⟨1, false⟩, [⟨2, false⟩], true, false⟩ :
        SkIter Nat) = ⟨[], some ⟨2, false⟩, [], true, true⟩ ∧
    (SkIter.next (SkIter.delete
        (⟨[], some ⟨1, false⟩, [⟨2, false⟩], true, false⟩ : SkIter Nat))) =
      ⟨[], some ⟨2, false⟩, [], true, false⟩ ∧
    SkIter.validQ (⟨[⟨2, false⟩], none, [], true, false⟩ : SkIter Nat) =
      false :=
  ⟨(C10_delete_next_semantics (α := Nat)).1 _ ⟨1, false⟩ rfl rfl rfl,
    (C10_delete_next_semantics (α := Nat)).2.2.1 _ ⟨1, false⟩ rfl rfl rfl,
    ((C10_delete_next_semantics (α := Nat)).2.2.2 _ rfl rfl).1⟩

/-- Witness for C1 at a concrete snapshot: `sn = 1`, a store holding an item
born later (`bornSn = 2`), a dead item (`deadSn = 1`) and a visible item. -/
theorem C1_skipUnwanted_visibility_witness :
    visibleB 1 (⟨5, 1, 0⟩ : NItem Nat) = true ∧
    NIter.emit natCmp (NIter.seekFirst
        ⟨[⟨3, 2, 0⟩, ⟨4, 1, 1⟩, ⟨5, 1, 0⟩], 1, [], none⟩) =
      ([⟨3, 2, 0⟩, ⟨4, 1, 1⟩, ⟨5, 1, 0⟩] :
        List (NItem Nat)).filter (visibleB 1) :=
  ⟨(C1_skipUnwanted_visibility natCmp 1 ([] : List (NItem Nat))).1
      [⟨3, 2, 0⟩, ⟨4, 1, 1⟩, ⟨5, 1, 0⟩] ⟨5, 1, 0⟩ [] (by decide),
    (C1_skipUnwanted_visibility natCmp 1
      [⟨3, 2, 0⟩, ⟨4, 1, 1⟩, ⟨5, 1, 0⟩]).2.1⟩

end Nitro
